import Mathlib

/-!
Verification of the OAuth2 token-caching flow of gpeople-api-go (src/main.go).

This file gives a shallow embedding of the functions `getClient`,
`tokenFromFile`, `saveToken` and `getTokenFromWeb` of src/main.go, together
with a model of the JSON (de)serialization of the oauth2 token used by the
token file, and proves the claimed properties about them.
-/

namespace GPeople

/-- The serialized fields of an oauth2.Token as they are stored in
token.json: access_token, token_type, refresh_token and the expiry
timestamp in its serialized (RFC3339 string) form.  Unexported internals of
the Go struct never reach the file and are not part of the stored
credential. -/
structure Token where
  access_token : String
  token_type : String
  refresh_token : String
  expiry : String
deriving Repr, DecidableEq

/-- Characters that the JSON encoder escapes inside a string literal: the
quote and the backslash. -/
def escChar (c : Char) : Bool := c = '"' || c = '\\'

/-- JSON string-literal escaping of the characters of a string. -/
def escapeChars : List Char → List Char
  | [] => []
  | c :: cs => if escChar c then '\\' :: c :: escapeChars cs else c :: escapeChars cs

/-- A JSON string literal: opening quote, escaped contents, closing quote. -/
def qstr (s : List Char) : List Char := '"' :: (escapeChars s ++ ['"'])

/-- One key:value member of a JSON object with string key and string value. -/
def kvEnc (k v : List Char) : List Char := qstr k ++ ':' :: qstr v

/-- The characters written by json.NewEncoder(f).Encode(token): one JSON
object holding the token's serialized fields, terminated by a newline.
(Field elision via omitempty is not modelled: an elided field and an empty
field decode to the same value.) -/
def encodeTokenChars (t : Token) : List Char :=
  '{' :: (kvEnc "access_token".data t.access_token.data ++ ',' ::
    (kvEnc "token_type".data t.token_type.data ++ ',' ::
      (kvEnc "refresh_token".data t.refresh_token.data ++ ',' ::
        (kvEnc "expiry".data t.expiry.data ++ '}' :: ['\n']))))

/-- The file contents written for a token. -/
def encodeToken (t : Token) : String := ⟨encodeTokenChars t⟩

/-- Parse the body of a JSON string literal after its opening quote:
returns the unescaped contents and the input remaining after the closing
quote, or none if the literal is unterminated. -/
def parseStrBody : List Char → Option (List Char × List Char)
  | [] => none
  | c :: cs =>
    if c = '"' then some ([], cs)
    else if c = '\\' then
      match cs with
      | [] => none
      | d :: cs' => (parseStrBody cs').map fun p => (d :: p.1, p.2)
    else (parseStrBody cs).map fun p => (c :: p.1, p.2)

/-- Parse one `"key":"value"` member of a JSON object, returning the key,
the value and the remaining input. -/
def parseKV (cs : List Char) : Option ((List Char × List Char) × List Char) :=
  match cs with
  | [] => none
  | c :: rest =>
    if c = '"' then
      match parseStrBody rest with
      | none => none
      | some (k, r1) =>
        match r1 with
        | [] => none
        | a :: r1' =>
          if a = ':' then
            match r1' with
            | [] => none
            | d :: r2 =>
              if d = '"' then
                match parseStrBody r2 with
                | none => none
                | some (v, r3) => some ((k, v), r3)
              else none
          else none
    else none

/-- Parse the members of a JSON object after its opening brace (at least
one member), up to and including the closing brace.  The fuel argument
bounds the number of members; callers pass the input length, which always
suffices since every member consumes at least one character. -/
def parseMembers : Nat → List Char → Option (List (List Char × List Char) × List Char)
  | 0, _ => none
  | fuel + 1, cs =>
    match parseKV cs with
    | none => none
    | some (kv, r) =>
      match r with
      | [] => none
      | a :: r2 =>
        if a = ',' then
          match parseMembers fuel r2 with
          | none => none
          | some (ms, r3) => some (kv :: ms, r3)
        else if a = '}' then some ([kv], r2)
        else none

/-- Parse one JSON object, returning its members and the unread remainder
of the input.  json.(*Decoder).Decode reads a single JSON value and leaves
the rest of the stream unread, so trailing input is not an error. -/
def parseObj (cs : List Char) : Option (List (List Char × List Char) × List Char) :=
  match cs with
  | [] => none
  | c :: rest =>
    if c = '{' then
      match rest with
      | [] => none
      | d :: rest2 =>
        if d = '}' then some ([], rest2)
        else parseMembers (d :: rest2).length (d :: rest2)
    else none

/-- The decode error reported for contents that are not a JSON object. -/
def jsonErrMsg : String := "invalid character in token file"

/-- The token value every field of which is zero, as produced by decoding
into a fresh oauth2.Token struct. -/
def zeroToken : Token := ⟨"", "", "", ""⟩

/-- Decoding one member into the token struct: a known key sets the
matching field, an unknown key is ignored (encoding/json ignores unknown
fields). -/
def applyMember (t : Token) (kv : List Char × List Char) : Token :=
  if kv.1 = "access_token".data then { t with access_token := ⟨kv.2⟩ }
  else if kv.1 = "token_type".data then { t with token_type := ⟨kv.2⟩ }
  else if kv.1 = "refresh_token".data then { t with refresh_token := ⟨kv.2⟩ }
  else if kv.1 = "expiry".data then { t with expiry := ⟨kv.2⟩ }
  else t

/-- json.NewDecoder(f).Decode(tok) on the file's characters: parse one JSON
object and fold its members into a zero token; anything that is not a JSON
object (including an empty file) is a decode error. -/
def decodeTokenChars (cs : List Char) : Except String Token :=
  match parseObj cs with
  | none => .error jsonErrMsg
  | some (ms, _) => .ok (ms.foldl applyMember zeroToken)

/-- Decode the contents of a token file. -/
def decodeToken (s : String) : Except String Token := decodeTokenChars s.data

/-- The error returned by os.Open when the token file is absent. -/
def openErrMsg : String := "open token.json: no such file or directory"

/-- tokenFromFile (src/main.go lines 77-86): open the file and decode one
JSON value into a fresh token.  The caller sees only the error position: an
absent file and a malformed file are both just a non-nil error. -/
def tokenFromFile : Option String → Except String Token
  | none => .error openErrMsg
  | some contents => decodeToken contents

/-- The failure modes of the I/O done by saveToken: whether
os.OpenFile(path, O_RDWR|O_CREATE|O_TRUNC, 0600) succeeds, and whether the
subsequent encode/write succeeds (none) or fails after writing the first n
characters (some n). -/
structure SaveEnv where
  openOk : Bool
  writeOutcome : Option Nat
deriving Repr, DecidableEq

/-- The outcome of saveToken: either it returns normally, leaving the given
file contents, or it terminates the process via log.Fatalf, leaving the
file as it was. -/
inductive SaveResult where
  | done (file : Option String)
  | fatalExit (file : Option String)
deriving Repr, DecidableEq

/-- The permission bits passed to os.OpenFile in saveToken
(owner read/write only). -/
def saveTokenFileMode : Nat := 0o600

/-- saveToken (src/main.go lines 89-97): open the token file with
O_RDWR|O_CREATE|O_TRUNC and mode 0600; an open failure is log.Fatalf
(process exit).  The result of json.NewEncoder(f).Encode(token) is
discarded, so an encode/write failure still returns normally, leaving
whatever prefix of the serialization was written. -/
def saveToken (env : SaveEnv) (old : Option String) (t : Token) : SaveResult :=
  if env.openOk then
    match env.writeOutcome with
    | none => .done (some (encodeToken t))
    | some n => .done (some ⟨(encodeTokenChars t).take n⟩)
  else .fatalExit old

/-- How many characters of the serialization get written in this save
(all of them when the write succeeds). -/
def writeLimit (env : SaveEnv) (t : Token) : Nat :=
  min (env.writeOutcome.getD (encodeTokenChars t).length) (encodeTokenChars t).length

/-- The sequence of on-disk contents visible during saveToken, in order: a
crash can strike at any point of it.  When the open succeeds the O_TRUNC
flag first truncates the file to empty, then the serialization is written
character by character, so every prefix of it is a visible state.  When the
open fails the file is never touched. -/
def saveVisibleStates (env : SaveEnv) (old : Option String) (t : Token) :
    List (Option String) :=
  if env.openOk then
    old :: (List.range (writeLimit env t + 1)).map
      (fun k => some ⟨(encodeTokenChars t).take k⟩)
  else [old]

/-- The claim's notion of an atomic replace (write to temp then rename, or
equivalent): every state visible during the save is either the old contents
or the complete new contents. -/
def atomicReplace (states : List (Option String)) (old new : Option String) : Prop :=
  ∀ st ∈ states, st = old ∨ st = new

/-- A request reaching the loopback receiver.  The field models
r.FormValue("code"): none when the query parameter is absent. -/
structure HttpRequest where
  code : Option String
deriving Repr, DecidableEq

/-- r.FormValue("code"): the empty string both when the parameter is absent
and when it is present but empty. -/
def formValue (r : HttpRequest) : String := r.code.getD ""

/-- The observable part of the receiver's HTTP response. -/
structure HttpResponse where
  status : Nat
  contentType : String
  body : String
deriving Repr, DecidableEq

/-- Body written by http.Error for a request without a code (fmt adds the
trailing newline). -/
def missingCodeBody : String := "Código não encontrado\n"

/-- Confirmation body written by fmt.Fprintln for a code-bearing request. -/
def successBody : String := "Autorização recebida! Você pode fechar esta janela.\n"

/-- The handler registered on "/" in getTokenFromWeb (src/main.go lines
105-114): a missing or empty code yields HTTP 400 via http.Error (which
sets a plain-text content type) and sends nothing on the channel; a
non-empty code yields HTTP 200 with the confirmation body and sends the
code on the channel. -/
def handleRedirect (r : HttpRequest) : HttpResponse × Option String :=
  let code := formValue r
  if code = "" then
    (⟨400, "text/plain; charset=utf-8", missingCodeBody⟩, none)
  else
    (⟨200, "text/plain; charset=utf-8", successBody⟩, some code)

/-- The select on codeCh: requests are served in arrival order and the
first one whose handler sends a code satisfies the receive; requests
without a code leave the receiver listening.  The argument lists the
requests arriving before the two-minute timeout; none means the timeout
fires first. -/
def awaitCode : List HttpRequest → Option String
  | [] => none
  | r :: rs =>
    match (handleRedirect r).2 with
    | some c => some c
    | none => awaitCode rs

/-- The externally visible events of one run, in order. -/
inductive Event where
  | startReceiver
  | presentURL
  | codeReceived (code : String)
  | shutdown
  | exchangeCall (code : String)
  | saveCall
  | fatalExit (msg : String)
deriving Repr, DecidableEq

/-- The result of a flow step: a token, or a fatal log.Fatalf exit. -/
inductive FlowResult where
  | ok (tok : Token)
  | fatal (msg : String)
deriving Repr, DecidableEq

/-- The environment of one getTokenFromWeb invocation: the requests that
reach the receiver before the two-minute timeout, and the provider's
token endpoint. -/
structure WebEnv where
  requests : List HttpRequest
  exchange : String → Except String Token

/-- Result and event trace of one getTokenFromWeb invocation. -/
structure WebOutcome where
  result : FlowResult
  trace : List Event
deriving Repr, DecidableEq

/-- Message of the log.Fatalf on timeout. -/
def timeoutMsg : String := "Tempo esgotado aguardando o código de autorização."

/-- Message of the log.Fatalf on a failed code exchange. -/
def exchangeErrMsg : String := "Erro ao trocar o código pelo token."

/-- Message of the log.Fatalf on a failed open in saveToken. -/
def saveErrMsg : String := "Erro ao salvar o token."

/-- getTokenFromWeb (src/main.go lines 100-148): start the local server,
print the authorization URL, block on the code channel with a two-minute
timeout (timeout is log.Fatalf, taken before any shutdown), then shut the
server down and exchange the received code (exchange failure is
log.Fatalf). -/
def getTokenFromWeb (env : WebEnv) : WebOutcome :=
  match awaitCode env.requests with
  | none => ⟨.fatal timeoutMsg, [.startReceiver, .presentURL, .fatalExit timeoutMsg]⟩
  | some code =>
    match env.exchange code with
    | .error _ =>
      ⟨.fatal exchangeErrMsg,
        [.startReceiver, .presentURL, .codeReceived code, .shutdown,
          .exchangeCall code, .fatalExit exchangeErrMsg]⟩
    | .ok tok =>
      ⟨.ok tok,
        [.startReceiver, .presentURL, .codeReceived code, .shutdown,
          .exchangeCall code]⟩

/-- Number of code-for-token exchange calls in a trace. -/
def exchangeCount (tr : List Event) : Nat :=
  (tr.filter fun e => match e with | .exchangeCall _ => true | _ => false).length

/-- Whether srv.Shutdown was invoked in a trace. -/
def shutdownInvoked (tr : List Event) : Bool :=
  tr.any fun e => match e with | .shutdown => true | _ => false

/-- Whether the process terminated via log.Fatalf in a trace. -/
def processExited (tr : List Event) : Bool :=
  tr.any fun e => match e with | .fatalExit _ => true | _ => false

/-- The bound port is released when srv.Shutdown runs or when the process
exits (the operating system closes the listening socket on exit). -/
def portReleased (tr : List Event) : Bool :=
  shutdownInvoked tr || processExited tr

/-- The environment of one getClient invocation: the token file's current
contents, the web-flow environment, and the I/O outcomes of a save. -/
structure ClientEnv where
  file : Option String
  web : WebEnv
  save : SaveEnv

/-- Result, event trace and final token-file contents of one getClient
invocation. -/
structure RunOutcome where
  result : FlowResult
  trace : List Event
  file : Option String
deriving Repr, DecidableEq

/-- getClient (src/main.go lines 66-74): try tokenFromFile; on success wrap
the token immediately (no receiver, no URL, no exchange, no save).  On any
load error run getTokenFromWeb and then saveToken; a fatal exit inside
either propagates, and saveToken's outcome determines the final file. -/
def getClient (env : ClientEnv) : RunOutcome :=
  match tokenFromFile env.file with
  | .ok tok => ⟨.ok tok, [], env.file⟩
  | .error _ =>
    let w := getTokenFromWeb env.web
    match w.result with
    | .fatal m => ⟨.fatal m, w.trace, env.file⟩
    | .ok tok =>
      match saveToken env.save env.file tok with
      | .fatalExit f =>
        ⟨.fatal saveErrMsg, w.trace ++ [.saveCall, .fatalExit saveErrMsg], f⟩
      | .done f => ⟨.ok tok, w.trace ++ [.saveCall], f⟩

/-- The member region of the serialization of a token: everything between
the opening brace and the trailing newline, the closing brace included. -/
def tokenBody (t : Token) : List Char :=
  kvEnc "access_token".data t.access_token.data ++ ',' ::
    (kvEnc "token_type".data t.token_type.data ++ ',' ::
      (kvEnc "refresh_token".data t.refresh_token.data ++ ',' ::
        (kvEnc "expiry".data t.expiry.data ++ ['}'])))

/-- The members of the serialization of a token, in file order. -/
def tokenMembersList (t : Token) : List (List Char × List Char) :=
  [("access_token".data, t.access_token.data),
   ("token_type".data, t.token_type.data),
   ("refresh_token".data, t.refresh_token.data),
   ("expiry".data, t.expiry.data)]

/-- Result and trace of a getClient run on a cache miss, as a function of
the web environment and the save outcomes alone (the prior file contents do
not influence them). -/
def missRun (w : WebEnv) (sv : SaveEnv) : FlowResult × List Event :=
  let o := getTokenFromWeb w
  match o.result with
  | .fatal m => (.fatal m, o.trace)
  | .ok tok =>
    if sv.openOk then (.ok tok, o.trace ++ [.saveCall])
    else (.fatal saveErrMsg, o.trace ++ [.saveCall, .fatalExit saveErrMsg])

/-! ### Concrete fixtures -/

/-- A concrete well-formed token used in witnesses. -/
def tokA : Token := ⟨"ya29.sample", "Bearer", "1refresh", "2025-01-02T03:04:05Z"⟩

/-- A token-endpoint model accepting exactly the code "abc123". -/
def exchangeA : String → Except String Token :=
  fun c => if c = "abc123" then .ok tokA else .error "invalid_grant"

/-- A redirect request carrying a code. -/
def reqCode : HttpRequest := ⟨some "abc123"⟩

/-- A redirect request with no code parameter. -/
def reqMissing : HttpRequest := ⟨none⟩

/-- Receiver environment delivering a valid code before the timeout. -/
def webHit : WebEnv := ⟨[reqCode], exchangeA⟩

/-- Receiver environment with no request before the timeout. -/
def webNone : WebEnv := ⟨[], exchangeA⟩

/-- Prior contents of the token file in counterexamples. -/
def oldContent : String := "old-contents"

/-- Claim C2 formalized as stated: when the interactive flow produced a
credential and persisting it fails, the failure is non-fatal and the
in-memory credential is still returned for the current run. -/
def claimSaveFailureNonFatal : Prop :=
  ∀ (env : ClientEnv) (t : Token) (e : String),
    tokenFromFile env.file = .error e →
    (getTokenFromWeb env.web).result = .ok t →
    (env.save.openOk = false ∨ env.save.writeOutcome ≠ none) →
    (getClient env).result = .ok t

/-- Environment with a cold cache, a successful web flow and a save whose
file open fails. -/
def envSaveFail : ClientEnv := ⟨none, webHit, ⟨false, none⟩⟩

/-! ### Round trip of the serialization -/

theorem parseStrBody_cons (c : Char) (cs : List Char) :
    parseStrBody (c :: cs) =
      if c = '"' then some ([], cs)
      else if c = '\\' then
        match cs with
        | [] => none
        | d :: cs' => (parseStrBody cs').map fun p => (d :: p.1, p.2)
      else (parseStrBody cs).map fun p => (c :: p.1, p.2) := by
  cases cs <;> rfl

theorem parseStrBody_escape (s rest : List Char) :
    parseStrBody (escapeChars s ++ '"' :: rest) = some (s, rest) := by
  induction s with
  | nil => simp [escapeChars, parseStrBody_cons]
  | cons c cs ih =>
    by_cases hc : escChar c = true
    · have he : escapeChars (c :: cs) = '\\' :: c :: escapeChars cs := by
        simp [escapeChars, hc]
      rw [he]
      simp [parseStrBody_cons, ih]
    · have hq : ¬ c = '"' := by
        intro h; apply hc; simp [escChar, h]
      have hb : ¬ c = '\\' := by
        intro h; apply hc; simp [escChar, h]
      have he : escapeChars (c :: cs) = c :: escapeChars cs := by
        simp [escapeChars, hc]
      rw [he]
      simp [parseStrBody_cons, hq, hb, ih]

theorem kvEnc_append (k v X : List Char) :
    kvEnc k v ++ X =
      '"' :: (escapeChars k ++ '"' :: ':' :: '"' :: (escapeChars v ++ '"' :: X)) := by
  simp [kvEnc, qstr]

theorem parseKV_enc (k v rest : List Char) :
    parseKV (kvEnc k v ++ rest) = some ((k, v), rest) := by
  rw [kvEnc_append]
  simp [parseKV, parseStrBody_escape]

theorem parseMembers_comma (fuel : Nat) {cs kv r2 ms r3}
    (h : parseKV cs = some (kv, ',' :: r2))
    (h2 : parseMembers fuel r2 = some (ms, r3)) :
    parseMembers (fuel + 1) cs = some (kv :: ms, r3) := by
  simp [parseMembers, h, h2]

theorem parseMembers_brace (fuel : Nat) {cs kv r2}
    (h : parseKV cs = some (kv, '}' :: r2)) :
    parseMembers (fuel + 1) cs = some ([kv], r2) := by
  simp [parseMembers, h]

theorem parseMembers_enc4 (fuel : Nat) (k1 v1 k2 v2 k3 v3 k4 v4 rest : List Char) :
    parseMembers (fuel + 4)
      (kvEnc k1 v1 ++ ',' ::
        (kvEnc k2 v2 ++ ',' :: (kvEnc k3 v3 ++ ',' :: (kvEnc k4 v4 ++ '}' :: rest)))) =
      some ([(k1, v1), (k2, v2), (k3, v3), (k4, v4)], rest) :=
  parseMembers_comma (fuel + 3) (parseKV_enc k1 v1 _)
    (parseMembers_comma (fuel + 2) (parseKV_enc k2 v2 _)
      (parseMembers_comma (fuel + 1) (parseKV_enc k3 v3 _)
        (parseMembers_brace fuel (parseKV_enc k4 v4 _))))

theorem kvEnc_length (k v : List Char) :
    (kvEnc k v).length = (escapeChars k).length + (escapeChars v).length + 5 := by
  simp [kvEnc, qstr]
  omega

theorem parseObj_brace_quote (tail : List Char) :
    parseObj ('{' :: '"' :: tail) = parseMembers ('"' :: tail).length ('"' :: tail) := by
  simp [parseObj]

theorem parseObj_enc4 (k1 v1 k2 v2 k3 v3 k4 v4 rest : List Char) :
    parseObj ('{' ::
      (kvEnc k1 v1 ++ ',' ::
        (kvEnc k2 v2 ++ ',' :: (kvEnc k3 v3 ++ ',' :: (kvEnc k4 v4 ++ '}' :: rest))))) =
      some ([(k1, v1), (k2, v2), (k3, v3), (k4, v4)], rest) := by
  have hb := kvEnc_append k1 v1
    (',' :: (kvEnc k2 v2 ++ ',' :: (kvEnc k3 v3 ++ ',' :: (kvEnc k4 v4 ++ '}' :: rest))))
  rw [hb, parseObj_brace_quote, ← hb]
  have h4 : 4 ≤ (kvEnc k1 v1 ++ ',' ::
      (kvEnc k2 v2 ++ ',' :: (kvEnc k3 v3 ++ ',' :: (kvEnc k4 v4 ++ '}' :: rest)))).length := by
    simp [kvEnc_length]
    omega
  obtain ⟨f, hf⟩ := Nat.exists_eq_add_of_le h4
  rw [hf, Nat.add_comm 4 f]
  exact parseMembers_enc4 f k1 v1 k2 v2 k3 v3 k4 v4 rest

theorem foldl_token_fields (t : Token) :
    List.foldl applyMember zeroToken
      [("access_token".data, t.access_token.data),
       ("token_type".data, t.token_type.data),
       ("refresh_token".data, t.refresh_token.data),
       ("expiry".data, t.expiry.data)] = t := rfl

/-- Decoding inverts encoding: the serialization written by saveToken reads
back as exactly the token that was saved. -/
theorem decodeTokenChars_encode (t : Token) :
    decodeTokenChars (encodeTokenChars t) = Except.ok t := by
  simp only [encodeTokenChars, decodeTokenChars, parseObj_enc4]
  rfl

theorem decodeToken_encodeToken (t : Token) :
    decodeToken (encodeToken t) = Except.ok t :=
  decodeTokenChars_encode t

/-! ### Truncated serializations never decode to a different credential -/

theorem parseStrBody_nil : parseStrBody [] = none := rfl

theorem parseStrBody_split_aux (n : Nat) :
    ∀ (cs : List Char), cs.length ≤ n → ∀ v r, parseStrBody cs = some (v, r) →
      ∃ pre, cs = pre ++ r ∧ 0 < pre.length ∧
        (∀ X, parseStrBody (pre ++ X) = some (v, X)) ∧
        (∀ k < pre.length, parseStrBody (pre.take k) = none) := by
  induction n with
  | zero =>
    intro cs hlen v r h
    cases cs with
    | nil => simp [parseStrBody_nil] at h
    | cons c cs1 => simp at hlen
  | succ n ih =>
    intro cs hlen v r h
    cases cs with
    | nil => simp [parseStrBody_nil] at h
    | cons c cs1 =>
      rw [parseStrBody_cons] at h
      by_cases hq : c = '"'
      · rw [if_pos hq] at h
        obtain ⟨hv, hr⟩ : v = [] ∧ r = cs1 := by
          have h' := h.symm
          simpa using h'
        subst hv
        subst hr
        refine ⟨[c], by simp, by simp, ?_, ?_⟩
        · intro X
          rw [hq]
          simp [parseStrBody_cons]
        · intro k hk
          have hk0 : k = 0 := by simpa using hk
          simp [hk0, parseStrBody_nil]
      · by_cases hbs : c = '\\'
        · rw [if_neg hq, if_pos hbs] at h
          cases cs1 with
          | nil => simp at h
          | cons d cs2 =>
            have h' : (parseStrBody cs2).map (fun p => (d :: p.1, p.2)) = some (v, r) := h
            cases hps : parseStrBody cs2 with
            | none => rw [hps] at h'; simp at h'
            | some p =>
              obtain ⟨p1, r1⟩ := p
              rw [hps] at h'
              obtain ⟨hv, hr⟩ : v = d :: p1 ∧ r = r1 := by
                have h'' := h'.symm
                simpa using h''
              subst hv
              subst hr
              have hlen2 : cs2.length ≤ n := by
                simp at hlen
                omega
              obtain ⟨pre1, heq, hpos, hext, htr⟩ := ih cs2 hlen2 p1 r hps
              refine ⟨'\\' :: d :: pre1, by simp [heq, hbs], by simp, ?_, ?_⟩
              · intro X
                simp [parseStrBody_cons, hext X]
              · intro k hk
                match k with
                | 0 => simp [parseStrBody_nil]
                | 1 => simp [parseStrBody_cons, parseStrBody_nil]
                | (k' + 2) =>
                  have hk' : k' < pre1.length := by
                    simp at hk
                    omega
                  simp [parseStrBody_cons, htr k' hk']
        · rw [if_neg hq, if_neg hbs] at h
          cases hps : parseStrBody cs1 with
          | none => rw [hps] at h; simp at h
          | some p =>
            obtain ⟨p1, r1⟩ := p
            rw [hps] at h
            obtain ⟨hv, hr⟩ : v = c :: p1 ∧ r = r1 := by
              have h' := h.symm
              simpa using h'
            subst hv
            subst hr
            have hlen2 : cs1.length ≤ n := by
              simp at hlen
              omega
            obtain ⟨pre1, heq, hpos, hext, htr⟩ := ih cs1 hlen2 p1 r hps
            refine ⟨c :: pre1, by simp [heq], by simp, ?_, ?_⟩
            · intro X
              simp [parseStrBody_cons, hq, hbs, hext X]
            · intro k hk
              match k with
              | 0 => simp [parseStrBody_nil]
              | (k' + 1) =>
                have hk' : k' < pre1.length := by
                  simp at hk
                  omega
                simp [parseStrBody_cons, hq, hbs, htr k' hk']

theorem parseStrBody_split {cs v r : List Char} (h : parseStrBody cs = some (v, r)) :
    ∃ pre, cs = pre ++ r ∧ 0 < pre.length ∧
      (∀ X, parseStrBody (pre ++ X) = some (v, X)) ∧
      (∀ k < pre.length, parseStrBody (pre.take k) = none) :=
  parseStrBody_split_aux cs.length cs le_rfl v r h

theorem parseKV_nil : parseKV [] = none := rfl

theorem parseKV_cons (c : Char) (rest : List Char) :
    parseKV (c :: rest) =
      if c = '"' then
        match parseStrBody rest with
        | none => none
        | some (k, r1) =>
          match r1 with
          | [] => none
          | a :: r1' =>
            if a = ':' then
              match r1' with
              | [] => none
              | d :: r2 =>
                if d = '"' then
                  match parseStrBody r2 with
                  | none => none
                  | some (v, r3) => some ((k, v), r3)
                else none
            else none
      else none := rfl

theorem parseKV_split {cs : List Char} {kv : List Char × List Char} {r : List Char}
    (h : parseKV cs = some (kv, r)) :
    ∃ pre, cs = pre ++ r ∧ 0 < pre.length ∧
      (∀ X, parseKV (pre ++ X) = some (kv, X)) ∧
      (∀ k < pre.length, parseKV (pre.take k) = none) := by
  cases cs with
  | nil => simp [parseKV_nil] at h
  | cons c rest =>
    rw [parseKV_cons] at h
    split at h
    · rename_i hq
      subst hq
      split at h
      · simp at h
      · rename_i k1 r1 hps1
        split at h
        · simp at h
        · rename_i a r1'
          split at h
          · rename_i ha
            subst ha
            split at h
            · simp at h
            · rename_i d r2
              split at h
              · rename_i hd
                subst hd
                split at h
                · simp at h
                · rename_i v1 r3 hps2
                  obtain ⟨hkv, hr⟩ : kv = (k1, v1) ∧ r = r3 := by
                    have h' := h.symm
                    simpa using h'
                  subst hkv
                  subst hr
                  obtain ⟨pre1, heq1, hpos1, hext1, htr1⟩ := parseStrBody_split hps1
                  obtain ⟨pre2, heq2, hpos2, hext2, htr2⟩ := parseStrBody_split hps2
                  refine ⟨'"' :: (pre1 ++ ':' :: '"' :: pre2), ?_, by simp, ?_, ?_⟩
                  · simp [heq1, heq2]
                  · intro X
                    rw [show ('"' :: (pre1 ++ ':' :: '"' :: pre2)) ++ X =
                        '"' :: (pre1 ++ (':' :: '"' :: (pre2 ++ X))) by simp]
                    rw [parseKV_cons]
                    simp [hext1, hext2]
                  · intro k hk
                    match k with
                    | 0 => simp [parseKV_nil]
                    | (j + 1) =>
                      have hjlen : j < pre1.length + pre2.length + 2 := by
                        simp at hk
                        omega
                      rw [List.take_succ_cons, parseKV_cons]
                      rcases Nat.lt_trichotomy j pre1.length with hj | hj | hj
                      · have ht : (pre1 ++ ':' :: '"' :: pre2).take j = pre1.take j := by
                          rw [List.take_append_eq_append_take]
                          have h0 : j - pre1.length = 0 := by omega
                          simp [h0]
                        rw [ht]
                        simp [htr1 j hj]
                      · have ht : (pre1 ++ ':' :: '"' :: pre2).take j = pre1 := by
                          rw [List.take_append_eq_append_take]
                          have h0 : j - pre1.length = 0 := by omega
                          simp [h0, hj]
                        rw [ht]
                        have hp1 : parseStrBody pre1 = some (k1, []) := by
                          have h2 := hext1 []
                          simpa using h2
                        simp [hp1]
                      · have hge : pre1.length ≤ j := by omega
                        rw [List.take_append_eq_append_take, List.take_of_length_le hge]
                        rcases Nat.lt_trichotomy (j - pre1.length) 1 with hi | hi | hi
                        · omega
                        · have ht : (':' :: '"' :: pre2).take (j - pre1.length) = [':'] := by
                            rw [hi]
                            simp
                          rw [ht]
                          have hp1 := hext1 [':']
                          simp [hp1]
                        · obtain ⟨i, hi2⟩ : ∃ i, j - pre1.length = i + 2 :=
                            ⟨j - pre1.length - 2, by omega⟩
                          rw [hi2]
                          simp only [List.take_succ_cons]
                          have hilt : i < pre2.length := by omega
                          have hp1 := hext1 (':' :: '"' :: pre2.take i)
                          simp [hp1, htr2 i hilt]
              · simp at h
          · simp at h
    · simp at h

theorem parseMembers_zero (cs : List Char) : parseMembers 0 cs = none := rfl

theorem parseMembers_nil (fuel : Nat) : parseMembers fuel [] = none := by
  cases fuel <;> rfl

theorem parseMembers_succ (fuel : Nat) (cs : List Char) :
    parseMembers (fuel + 1) cs =
      match parseKV cs with
      | none => none
      | some (kv, r) =>
        match r with
        | [] => none
        | a :: r2 =>
          if a = ',' then
            match parseMembers fuel r2 with
            | none => none
            | some (ms, r3) => some (kv :: ms, r3)
          else if a = '}' then some ([kv], r2)
          else none := rfl

theorem parseMembers_of_kv_none {cs : List Char} (h : parseKV cs = none)
    (fuel : Nat) : parseMembers fuel cs = none := by
  cases fuel with
  | zero => rfl
  | succ f => rw [parseMembers_succ, h]

theorem parseMembers_of_kv_empty {cs : List Char} {kv : List Char × List Char}
    (h : parseKV cs = some (kv, [])) (fuel : Nat) : parseMembers fuel cs = none := by
  cases fuel with
  | zero => rfl
  | succ f => rw [parseMembers_succ, h]

theorem parseMembers_split :
    ∀ (fuel : Nat) (cs : List Char) (ms : List (List Char × List Char)) (r : List Char),
      parseMembers fuel cs = some (ms, r) →
      ∃ pre, cs = pre ++ r ∧ 0 < pre.length ∧
        (∀ k < pre.length, ∀ fuel', parseMembers fuel' (pre.take k) = none) := by
  intro fuel
  induction fuel with
  | zero =>
    intro cs ms r h
    simp [parseMembers_zero] at h
  | succ fuel ih =>
    intro cs ms r h
    rw [parseMembers_succ] at h
    split at h
    · simp at h
    · rename_i kv r0 hkv
      split at h
      · simp at h
      · rename_i a r2
        split at h
        · rename_i ha
          subst ha
          split at h
          · simp at h
          · rename_i ms1 r3 hpm
            obtain ⟨hms, hr⟩ : ms = kv :: ms1 ∧ r = r3 := by
              have h' := h.symm
              simpa using h'
            subst hms
            subst hr
            obtain ⟨pre0, heq0, hpos0, hext0, htr0⟩ := parseKV_split hkv
            obtain ⟨pre2, heq2, hpos2, htr2⟩ := ih r2 ms1 r hpm
            refine ⟨pre0 ++ ',' :: pre2, ?_, ?_, ?_⟩
            · simp [heq0, heq2]
            · simp
            · intro k hk fuel'
              have hklen : k < pre0.length + pre2.length + 1 := by
                simp at hk
                omega
              rw [List.take_append_eq_append_take]
              rcases Nat.lt_trichotomy k pre0.length with hkc | hkc | hkc
              · have h0 : k - pre0.length = 0 := by omega
                rw [h0]
                simp only [List.take_zero, List.append_nil]
                exact parseMembers_of_kv_none (htr0 k hkc) fuel'
              · have h0 : k - pre0.length = 0 := by omega
                rw [h0]
                simp only [List.take_zero, List.append_nil, hkc, List.take_length]
                have hkv0 : parseKV pre0 = some (kv, []) := by
                  have h2 := hext0 []
                  simpa using h2
                exact parseMembers_of_kv_empty hkv0 fuel'
              · have hge : pre0.length ≤ k := by omega
                rw [List.take_of_length_le hge]
                obtain ⟨i, hi⟩ : ∃ i, k - pre0.length = i + 1 :=
                  ⟨k - pre0.length - 1, by omega⟩
                rw [hi, List.take_succ_cons]
                have hilt : i < pre2.length := by omega
                cases fuel' with
                | zero => rfl
                | succ f2 =>
                  rw [parseMembers_succ, hext0 (',' :: pre2.take i)]
                  simp [htr2 i hilt f2]
        · rename_i ha
          split at h
          · rename_i hbr
            subst hbr
            obtain ⟨hms, hr⟩ : ms = [kv] ∧ r = r2 := by
              have h' := h.symm
              simpa using h'
            subst hms
            subst hr
            obtain ⟨pre0, heq0, hpos0, hext0, htr0⟩ := parseKV_split hkv
            refine ⟨pre0 ++ ['}'], ?_, ?_, ?_⟩
            · simp [heq0]
            · simp
            · intro k hk fuel'
              have hklen : k < pre0.length + 1 := by
                simp at hk
                omega
              rw [List.take_append_eq_append_take]
              rcases Nat.lt_trichotomy k pre0.length with hkc | hkc | hkc
              · have h0 : k - pre0.length = 0 := by omega
                rw [h0]
                simp only [List.take_zero, List.append_nil]
                exact parseMembers_of_kv_none (htr0 k hkc) fuel'
              · have h0 : k - pre0.length = 0 := by omega
                rw [h0]
                simp only [List.take_zero, List.append_nil, hkc, List.take_length]
                have hkv0 : parseKV pre0 = some (kv, []) := by
                  have h2 := hext0 []
                  simpa using h2
                exact parseMembers_of_kv_empty hkv0 fuel'
              · omega
          · simp at h

theorem parseObj_nil : parseObj [] = none := rfl

theorem parseObj_cons (c : Char) (rest : List Char) :
    parseObj (c :: rest) =
      if c = '{' then
        match rest with
        | [] => none
        | d :: rest2 =>
          if d = '}' then some ([], rest2)
          else parseMembers (d :: rest2).length (d :: rest2)
      else none := by
  cases rest <;> rfl

theorem tokenBody_append (t : Token) (rest : List Char) :
    tokenBody t ++ rest =
      kvEnc "access_token".data t.access_token.data ++ ',' ::
        (kvEnc "token_type".data t.token_type.data ++ ',' ::
          (kvEnc "refresh_token".data t.refresh_token.data ++ ',' ::
            (kvEnc "expiry".data t.expiry.data ++ '}' :: rest))) := by
  simp [tokenBody]

theorem encodeTokenChars_eq_body (t : Token) :
    encodeTokenChars t = '{' :: (tokenBody t ++ ['\n']) := by
  rw [tokenBody_append]
  rfl

theorem parseMembers_tokenBody (t : Token) (fuel : Nat) (rest : List Char) :
    parseMembers (fuel + 4) (tokenBody t ++ rest) = some (tokenMembersList t, rest) := by
  rw [tokenBody_append]
  exact parseMembers_enc4 fuel _ _ _ _ _ _ _ _ rest

theorem decode_body (t : Token) (rest : List Char) :
    decodeTokenChars ('{' :: (tokenBody t ++ rest)) = Except.ok t := by
  rw [tokenBody_append]
  simp only [decodeTokenChars, parseObj_enc4]
  rfl

/-- Every proper truncation of the serialization of a token either fails to
decode (and is then treated like an absent file) or decodes to exactly the
token that was being written: a crash mid-write can never leave a file that
decodes to a different, valid-but-wrong credential. -/
theorem decode_take_encode (t : Token) :
    ∀ j < (encodeTokenChars t).length,
      decodeTokenChars ((encodeTokenChars t).take j) = Except.error jsonErrMsg ∨
      decodeTokenChars ((encodeTokenChars t).take j) = Except.ok t := by
  intro j hj
  rw [encodeTokenChars_eq_body] at hj ⊢
  obtain ⟨pre, hpre, hprepos, htr⟩ :=
    parseMembers_split 4 (tokenBody t ++ ['\n']) (tokenMembersList t) ['\n']
      (parseMembers_tokenBody t 0 ['\n'])
  have hpreB : pre = tokenBody t := List.append_cancel_right hpre.symm
  subst hpreB
  obtain ⟨TT, hTT⟩ : ∃ TT, tokenBody t = '"' :: TT := by
    simp only [tokenBody]
    exact ⟨_, kvEnc_append _ _ _⟩
  cases j with
  | zero =>
    left
    simp [decodeTokenChars, parseObj_nil]
  | succ m =>
    rw [List.take_succ_cons]
    cases m with
    | zero =>
      left
      simp [decodeTokenChars, parseObj_cons]
    | succ m1 =>
      have hjlt : m1 + 1 ≤ (tokenBody t).length := by
        simp at hj
        omega
      have hBtake : (tokenBody t ++ ['\n']).take (m1 + 1) = (tokenBody t).take (m1 + 1) := by
        rw [List.take_append_eq_append_take]
        have h0 : m1 + 1 - (tokenBody t).length = 0 := by omega
        simp [h0]
      rw [hBtake]
      rcases Nat.lt_or_ge (m1 + 1) (tokenBody t).length with hlt | hge
      · left
        have h1 : (tokenBody t).take (m1 + 1) = '"' :: TT.take m1 := by
          rw [hTT, List.take_succ_cons]
        have hnone : ∀ fuel', parseMembers fuel' ('"' :: TT.take m1) = none := by
          intro fuel'
          have h2 := htr (m1 + 1) hlt fuel'
          rw [h1] at h2
          exact h2
        rw [h1]
        simp [decodeTokenChars, parseObj_cons, hnone]
      · have hmeq : m1 + 1 = (tokenBody t).length := by omega
        right
        have h1 : (tokenBody t).take (m1 + 1) = tokenBody t := by
          rw [hmeq]
          simp
        rw [h1]
        have h2 := decode_body t []
        simpa using h2

/-! ### Flow-level helper lemmas -/

theorem getTokenFromWeb_trace_head (w : WebEnv) :
    ∃ rest, (getTokenFromWeb w).trace =
      Event.startReceiver :: Event.presentURL :: rest := by
  cases ha : awaitCode w.requests with
  | none =>
    refine ⟨[Event.fatalExit timeoutMsg], ?_⟩
    simp [getTokenFromWeb, ha]
  | some code =>
    cases hx : w.exchange code with
    | error e =>
      refine ⟨[Event.codeReceived code, Event.shutdown, Event.exchangeCall code,
        Event.fatalExit exchangeErrMsg], ?_⟩
      simp [getTokenFromWeb, ha, hx]
    | ok tok =>
      refine ⟨[Event.codeReceived code, Event.shutdown, Event.exchangeCall code], ?_⟩
      simp [getTokenFromWeb, ha, hx]

theorem saveToken_openOk_done (sv : SaveEnv) (old : Option String) (t : Token)
    (h : sv.openOk = true) : ∃ f, saveToken sv old t = SaveResult.done f := by
  cases hwo : sv.writeOutcome with
  | none => exact ⟨some (encodeToken t), by simp [saveToken, h, hwo]⟩
  | some n => exact ⟨some ⟨(encodeTokenChars t).take n⟩, by simp [saveToken, h, hwo]⟩

theorem saveToken_openFail (sv : SaveEnv) (old : Option String) (t : Token)
    (h : sv.openOk = false) : saveToken sv old t = SaveResult.fatalExit old := by
  simp [saveToken, h]

theorem getClient_miss (env : ClientEnv) (e : String)
    (h : tokenFromFile env.file = .error e) :
    (getClient env).result = (missRun env.web env.save).1 ∧
    (getClient env).trace = (missRun env.web env.save).2 := by
  cases hw : (getTokenFromWeb env.web).result with
  | fatal m => simp [getClient, missRun, h, hw]
  | ok tok =>
    cases hop : env.save.openOk with
    | true =>
      obtain ⟨f, hf⟩ := saveToken_openOk_done env.save env.file tok hop
      simp [getClient, missRun, h, hw, hop, hf]
    | false =>
      have hf := saveToken_openFail env.save env.file tok hop
      simp [getClient, missRun, h, hw, hop, hf]

theorem missRun_trace_head (w : WebEnv) (sv : SaveEnv) :
    ∃ rest, (missRun w sv).2 =
      Event.startReceiver :: Event.presentURL :: rest := by
  obtain ⟨wrest, hwt⟩ := getTokenFromWeb_trace_head w
  cases hw : (getTokenFromWeb w).result with
  | fatal m =>
    refine ⟨wrest, ?_⟩
    simp [missRun, hw, hwt]
  | ok tok =>
    cases hop : sv.openOk with
    | true =>
      refine ⟨wrest ++ [Event.saveCall], ?_⟩
      simp [missRun, hw, hop, hwt]
    | false =>
      refine ⟨wrest ++ [Event.saveCall, Event.fatalExit saveErrMsg], ?_⟩
      simp [missRun, hw, hop, hwt]

/-! ### Claims -/

/-- Claim C1: on a cache hit (the stored token file loads successfully)
getClient returns the cached credential immediately with an empty event
trace: the loopback receiver is never started, no authorization URL is
presented, and no code-exchange call is made. -/
theorem getClient_cache_hit (env : ClientEnv) (t : Token)
    (h : tokenFromFile env.file = .ok t) :
    (getClient env).result = .ok t ∧ (getClient env).trace = [] ∧
    Event.startReceiver ∉ (getClient env).trace ∧
    Event.presentURL ∉ (getClient env).trace ∧
    (∀ c, Event.exchangeCall c ∉ (getClient env).trace) := by
  have hres : getClient env = ⟨.ok t, [], env.file⟩ := by
    simp [getClient, h]
  rw [hres]
  simp

theorem getClient_cache_hit_wit :
    (getClient ⟨some (encodeToken tokA), webNone, ⟨true, none⟩⟩).result = .ok tokA ∧
    (getClient ⟨some (encodeToken tokA), webNone, ⟨true, none⟩⟩).trace = [] ∧
    Event.startReceiver ∉ (getClient ⟨some (encodeToken tokA), webNone, ⟨true, none⟩⟩).trace ∧
    Event.presentURL ∉ (getClient ⟨some (encodeToken tokA), webNone, ⟨true, none⟩⟩).trace ∧
    (∀ c, Event.exchangeCall c ∉
      (getClient ⟨some (encodeToken tokA), webNone, ⟨true, none⟩⟩).trace) :=
  getClient_cache_hit _ tokA rfl

/-- Claim C2, as stated, is false of the code: when opening the token file
for writing fails, saveToken calls log.Fatalf, so the run terminates
fatally and the in-memory credential is not returned. -/
theorem save_failure_fatal_cex : ¬ claimSaveFailureNonFatal := by
  intro hcl
  have h := hcl envSaveFail tokA openErrMsg rfl rfl (Or.inl rfl)
  have h2 : (getClient envSaveFail).result = .fatal saveErrMsg := rfl
  rw [h2] at h
  exact FlowResult.noConfusion h

/-- Claim C2 amended: when the interactive flow produced a credential, a
failing open of the token file terminates the run fatally (log.Fatalf)
without returning the credential, while if the open succeeds the in-memory
credential is returned for the current run even when the JSON encode/write
fails, whose error is silently discarded. -/
theorem save_failure_behavior (env : ClientEnv) (t : Token) (e : String)
    (h1 : tokenFromFile env.file = .error e)
    (h2 : (getTokenFromWeb env.web).result = .ok t) :
    (env.save.openOk = false → (getClient env).result = .fatal saveErrMsg) ∧
    (env.save.openOk = true → (getClient env).result = .ok t) := by
  constructor
  · intro hop
    have hs := saveToken_openFail env.save env.file t hop
    simp [getClient, h1, h2, hs]
  · intro hop
    obtain ⟨f, hf⟩ := saveToken_openOk_done env.save env.file t hop
    simp [getClient, h1, h2, hf]

theorem save_failure_behavior_wit :
    (getClient envSaveFail).result = .fatal saveErrMsg ∧
    (getClient ⟨none, webHit, ⟨true, some 0⟩⟩).result = .ok tokA :=
  ⟨(save_failure_behavior envSaveFail tokA openErrMsg rfl rfl).1 rfl,
   (save_failure_behavior ⟨none, webHit, ⟨true, some 0⟩⟩ tokA openErrMsg rfl rfl).2 rfl⟩

/-- Claim C3, as stated, is false of the code: saveToken overwrites the
file in place with O_TRUNC rather than writing a temp file and renaming,
so during a save the file passes through the empty state, which is neither
the old nor the new contents — the replacement is not atomic. -/
theorem saveToken_not_atomic_cex :
    ¬ atomicReplace (saveVisibleStates ⟨true, none⟩ (some oldContent) tokA)
        (some oldContent) (some (encodeToken tokA)) := by
  intro h
  have hmem : (some ("" : String)) ∈
      saveVisibleStates ⟨true, none⟩ (some oldContent) tokA := by
    unfold saveVisibleStates
    rw [if_pos rfl]
    refine List.mem_cons_of_mem _ ?_
    refine List.mem_map.mpr ⟨0, ?_, rfl⟩
    simp
  rcases h _ hmem with h1 | h1
  · exact absurd h1 (by decide)
  · exact absurd h1 (by decide)

/-- Claim C3 corrected: saveToken serializes and overwrites the backing
file in place (open with create and truncate, owner-only 0600 permissions),
not atomically via temp-and-rename; still, every on-disk state visible
during the save is the old contents or a truncation of the new
serialization, and every truncation decodes either to an error (treated
like an absent file on the next load) or to exactly the saved token —
a crash mid-write never leaves a different, valid-but-wrong credential. -/
theorem saveToken_overwrite_safety (sv : SaveEnv) (old : Option String) (t : Token)
    (h : sv.openOk = true) :
    saveTokenFileMode = 0o600 ∧
    ∀ st ∈ saveVisibleStates sv old t, st = old ∨
      ∃ k ≤ (encodeTokenChars t).length, st = some ⟨(encodeTokenChars t).take k⟩ ∧
        (decodeToken ⟨(encodeTokenChars t).take k⟩ = .error jsonErrMsg ∨
         decodeToken ⟨(encodeTokenChars t).take k⟩ = .ok t) := by
  refine ⟨rfl, ?_⟩
  intro st hst
  unfold saveVisibleStates at hst
  rw [if_pos h] at hst
  rcases List.mem_cons.mp hst with h1 | h1
  · left
    exact h1
  · right
    obtain ⟨k, hk, hkeq⟩ := List.mem_map.mp h1
    have hkr : k < writeLimit sv t + 1 := List.mem_range.mp hk
    have hwl : writeLimit sv t ≤ (encodeTokenChars t).length := min_le_right _ _
    have hkle : k ≤ (encodeTokenChars t).length := by omega
    refine ⟨k, hkle, hkeq.symm, ?_⟩
    rcases Nat.lt_or_ge k (encodeTokenChars t).length with hlt | hge
    · exact decode_take_encode t k hlt
    · right
      have hkeq2 : k = (encodeTokenChars t).length := by omega
      rw [hkeq2, List.take_length]
      exact decodeToken_encodeToken t

theorem saveToken_overwrite_safety_wit :
    saveTokenFileMode = 0o600 ∧
    ∀ st ∈ saveVisibleStates ⟨true, none⟩ (some oldContent) tokA,
      st = some oldContent ∨
      ∃ k ≤ (encodeTokenChars tokA).length,
        st = some ⟨(encodeTokenChars tokA).take k⟩ ∧
        (decodeToken ⟨(encodeTokenChars tokA).take k⟩ = .error jsonErrMsg ∨
         decodeToken ⟨(encodeTokenChars tokA).take k⟩ = .ok tokA) :=
  saveToken_overwrite_safety ⟨true, none⟩ (some oldContent) tokA rfl

/-- Claim C4: a token file with malformed contents makes getClient behave
exactly as when the file is absent — same result, same events — and the
fresh interactive authorization flow is started; the load failure itself is
not fatal. -/
theorem load_malformed_as_absent (s : String) (w : WebEnv) (sv : SaveEnv) (e : String)
    (h : decodeToken s = .error e) :
    (getClient ⟨some s, w, sv⟩).result = (getClient ⟨none, w, sv⟩).result ∧
    (getClient ⟨some s, w, sv⟩).trace = (getClient ⟨none, w, sv⟩).trace ∧
    ∃ rest, (getClient ⟨some s, w, sv⟩).trace =
      Event.startReceiver :: Event.presentURL :: rest := by
  have hm := getClient_miss ⟨some s, w, sv⟩ e h
  have ha := getClient_miss ⟨none, w, sv⟩ openErrMsg rfl
  refine ⟨?_, ?_, ?_⟩
  · rw [hm.1, ha.1]
  · rw [hm.2, ha.2]
  · rw [hm.2]
    exact missRun_trace_head w sv

theorem load_malformed_as_absent_wit :
    (getClient ⟨some "not-json", webHit, ⟨true, none⟩⟩).result =
      (getClient ⟨none, webHit, ⟨true, none⟩⟩).result ∧
    (getClient ⟨some "not-json", webHit, ⟨true, none⟩⟩).trace =
      (getClient ⟨none, webHit, ⟨true, none⟩⟩).trace ∧
    ∃ rest, (getClient ⟨some "not-json", webHit, ⟨true, none⟩⟩).trace =
      Event.startReceiver :: Event.presentURL :: rest :=
  load_malformed_as_absent "not-json" webHit ⟨true, none⟩ jsonErrMsg rfl

/-- Claim C5: a redirect request whose code parameter is absent or empty is
answered with HTTP 400 and the plain-text error body and does not satisfy
the wait — the receiver keeps listening — while a code-bearing request is
answered with HTTP 200 and the confirmation body; after a missing-code
request followed by a valid one, the flow's awaited result is the valid
request's code. -/
theorem receiver_code_handling (r1 r2 : HttpRequest) (rs : List HttpRequest) (c : String)
    (h1 : formValue r1 = "") (h2 : formValue r2 = c) (h3 : c ≠ "") :
    handleRedirect r1 = (⟨400, "text/plain; charset=utf-8", missingCodeBody⟩, none) ∧
    handleRedirect r2 = (⟨200, "text/plain; charset=utf-8", successBody⟩, some c) ∧
    awaitCode (r1 :: r2 :: rs) = awaitCode (r2 :: rs) ∧
    awaitCode (r1 :: r2 :: rs) = some c := by
  have hh1 : handleRedirect r1 =
      (⟨400, "text/plain; charset=utf-8", missingCodeBody⟩, none) := by
    simp [handleRedirect, h1]
  have hh2 : handleRedirect r2 =
      (⟨200, "text/plain; charset=utf-8", successBody⟩, some c) := by
    simp [handleRedirect, h2, h3]
  refine ⟨hh1, hh2, ?_, ?_⟩
  · simp [awaitCode, hh1]
  · simp [awaitCode, hh1, hh2]

theorem receiver_code_handling_wit :
    handleRedirect reqMissing =
      (⟨400, "text/plain; charset=utf-8", missingCodeBody⟩, none) ∧
    handleRedirect reqCode =
      (⟨200, "text/plain; charset=utf-8", successBody⟩, some "abc123") ∧
    awaitCode [reqMissing, reqCode] = awaitCode [reqCode] ∧
    awaitCode [reqMissing, reqCode] = some "abc123" :=
  receiver_code_handling reqMissing reqCode [] "abc123" rfl rfl (by decide)

/-- Claim C6: when no authorization code is delivered within the timeout,
the invocation fails fatally with the timeout message, the exchange is
never called, no credential is produced, the token file is untouched, and
the receiver's port is released (the process exit closes the socket). -/
theorem flow_timeout (env : ClientEnv) (e : String)
    (h1 : tokenFromFile env.file = .error e)
    (h2 : awaitCode env.web.requests = none) :
    (getClient env).result = .fatal timeoutMsg ∧
    (getClient env).trace =
      [Event.startReceiver, Event.presentURL, Event.fatalExit timeoutMsg] ∧
    exchangeCount (getClient env).trace = 0 ∧
    portReleased (getClient env).trace = true ∧
    (getClient env).file = env.file := by
  have hw : getTokenFromWeb env.web =
      ⟨.fatal timeoutMsg,
        [Event.startReceiver, Event.presentURL, Event.fatalExit timeoutMsg]⟩ := by
    simp [getTokenFromWeb, h2]
  have hres : getClient env =
      ⟨.fatal timeoutMsg,
        [Event.startReceiver, Event.presentURL, Event.fatalExit timeoutMsg],
        env.file⟩ := by
    simp [getClient, h1, hw]
  rw [hres]
  exact ⟨rfl, rfl, rfl, rfl, rfl⟩

theorem flow_timeout_wit :
    (getClient ⟨none, webNone, ⟨true, none⟩⟩).result = .fatal timeoutMsg ∧
    (getClient ⟨none, webNone, ⟨true, none⟩⟩).trace =
      [Event.startReceiver, Event.presentURL, Event.fatalExit timeoutMsg] ∧
    exchangeCount (getClient ⟨none, webNone, ⟨true, none⟩⟩).trace = 0 ∧
    portReleased (getClient ⟨none, webNone, ⟨true, none⟩⟩).trace = true ∧
    (getClient ⟨none, webNone, ⟨true, none⟩⟩).file = none :=
  flow_timeout ⟨none, webNone, ⟨true, none⟩⟩ openErrMsg rfl rfl

/-- Claim C7: when the receiver delivers a code, the trace of the web flow
is exactly receiver start, URL display, code delivery, shutdown, then the
exchange of precisely that code (followed at most by the fatal exit of a
failed exchange): the exchange never begins before the code is delivered,
shutdown is initiated only after the code is captured, and the exchange is
called exactly once, with exactly the delivered code. -/
theorem flow_order_exchange_once (w : WebEnv) (c : String)
    (h : awaitCode w.requests = some c) :
    (∃ rest, (getTokenFromWeb w).trace =
      [Event.startReceiver, Event.presentURL, Event.codeReceived c,
       Event.shutdown, Event.exchangeCall c] ++ rest) ∧
    exchangeCount (getTokenFromWeb w).trace = 1 := by
  cases hx : w.exchange c with
  | error e =>
    have ht : getTokenFromWeb w =
        ⟨.fatal exchangeErrMsg,
          [Event.startReceiver, Event.presentURL, Event.codeReceived c,
           Event.shutdown, Event.exchangeCall c,
           Event.fatalExit exchangeErrMsg]⟩ := by
      simp [getTokenFromWeb, h, hx]
    rw [ht]
    exact ⟨⟨[Event.fatalExit exchangeErrMsg], rfl⟩, rfl⟩
  | ok tok =>
    have ht : getTokenFromWeb w =
        ⟨.ok tok,
          [Event.startReceiver, Event.presentURL, Event.codeReceived c,
           Event.shutdown, Event.exchangeCall c]⟩ := by
      simp [getTokenFromWeb, h, hx]
    rw [ht]
    exact ⟨⟨[], rfl⟩, rfl⟩

theorem flow_order_exchange_once_wit :
    (∃ rest, (getTokenFromWeb webHit).trace =
      [Event.startReceiver, Event.presentURL, Event.codeReceived "abc123",
       Event.shutdown, Event.exchangeCall "abc123"] ++ rest) ∧
    exchangeCount (getTokenFromWeb webHit).trace = 1 :=
  flow_order_exchange_once webHit "abc123" rfl

/-- Claim C8: a successful save writes the serialization of the token and
loading that file back yields exactly the saved token (save/load round
trip). -/
theorem save_load_roundtrip (sv : SaveEnv) (old : Option String) (t : Token)
    (h1 : sv.openOk = true) (h2 : sv.writeOutcome = none) :
    saveToken sv old t = .done (some (encodeToken t)) ∧
    tokenFromFile (some (encodeToken t)) = .ok t :=
  ⟨by simp [saveToken, h1, h2], decodeToken_encodeToken t⟩

theorem save_load_roundtrip_wit :
    saveToken ⟨true, none⟩ (some oldContent) tokA = .done (some (encodeToken tokA)) ∧
    tokenFromFile (some (encodeToken tokA)) = .ok tokA :=
  save_load_roundtrip ⟨true, none⟩ (some oldContent) tokA rfl rfl

/-- Claim C9: load performs no semantic validation: any file contents that
JSON-decode successfully — the empty object included — count as a cache
hit, the decoded token is returned however degenerate its fields, and the
interactive flow is skipped. -/
theorem load_no_validation (env : ClientEnv) (s : String) (t : Token)
    (h1 : env.file = some s) (h2 : decodeToken s = .ok t) :
    (getClient env).result = .ok t ∧ (getClient env).trace = [] := by
  have h : tokenFromFile env.file = .ok t := by
    rw [h1]
    exact h2
  simp [getClient, h]

theorem load_no_validation_wit :
    (getClient ⟨some "\x7b\x7d", webNone, ⟨true, none⟩⟩).result = .ok ⟨"", "", "", ""⟩ ∧
    (getClient ⟨some "\x7b\x7d", webNone, ⟨true, none⟩⟩).trace = [] :=
  load_no_validation ⟨some "\x7b\x7d", webNone, ⟨true, none⟩⟩ "\x7b\x7d" ⟨"", "", "", ""⟩ rfl rfl

/-- Claim C10: saveToken surfaces an error only from opening the file: a
failing JSON encode/write is discarded and the call completes as if
successful, possibly leaving an empty or truncated token file on disk. -/
theorem saveToken_write_error_silent (sv : SaveEnv) (old : Option String)
    (t : Token) (n : Nat)
    (h1 : sv.openOk = true) (h2 : sv.writeOutcome = some n)
    (h3 : n < (encodeTokenChars t).length) :
    (∀ f, saveToken sv old t ≠ SaveResult.fatalExit f) ∧
    ∃ s, saveToken sv old t = .done (some s) ∧
      s.data = (encodeTokenChars t).take n ∧ s ≠ encodeToken t := by
  have hs : saveToken sv old t = .done (some ⟨(encodeTokenChars t).take n⟩) := by
    simp [saveToken, h1, h2]
  refine ⟨?_, ⟨⟨(encodeTokenChars t).take n⟩, hs, rfl, ?_⟩⟩
  · intro f hf
    rw [hs] at hf
    exact SaveResult.noConfusion hf
  · intro hEq
    have h5 : ((encodeTokenChars t).take n).length = (encodeTokenChars t).length :=
      congrArg (fun s => s.data.length) hEq
    rw [List.length_take] at h5
    have h6 : min n (encodeTokenChars t).length ≤ n := min_le_left _ _
    omega

theorem saveToken_write_error_silent_wit :
    (∀ f, saveToken ⟨true, some 0⟩ (some oldContent) tokA ≠ SaveResult.fatalExit f) ∧
    ∃ s, saveToken ⟨true, some 0⟩ (some oldContent) tokA = .done (some s) ∧
      s.data = (encodeTokenChars tokA).take 0 ∧ s ≠ encodeToken tokA :=
  saveToken_write_error_silent ⟨true, some 0⟩ (some oldContent) tokA 0 rfl rfl (by decide)

end GPeople
